import Mathlib

/-!
Verification of the sandboxed file-action subsystem of the Code-Agent
repository, as a shallow embedding in Lean 4.

Text is modelled as `List Char` (Python `str`).  The filesystem visible to
the file operations is an association list from resolved relative path to
file content; path resolution itself is modelled separately over an
abstract component algebra (`resolve_path`), exactly mirroring
`os.path.abspath(os.path.join(root, rel))` followed by the `startswith`
comparison of `coding_agent/utils/file_operations.py`.
-/

set_option maxRecDepth 4000

namespace CodeAgent

/-- Python strings are modelled as lists of characters. -/
abbrev Str := List Char

/-- Python `s.startswith(pat)`: `pat` is an initial segment of `s`. -/
def startsWithL : Str → Str → Bool
  | _, [] => true
  | [], _ :: _ => false
  | c :: s, p :: ps => c = p && startsWithL s ps

/-- Python `pat in s`: `pat` occurs as a contiguous substring of `s`. -/
def occursIn (pat : Str) : Str → Bool
  | [] => pat.isEmpty
  | c :: rest => startsWithL (c :: rest) pat || occursIn pat rest

/-! ## Path resolver (`_resolve_path`)

`os.path.join(root, rel)` is `rel` when `rel` is absolute, else the
concatenation of the components; `os.path.abspath` on an absolute
argument is `os.path.normpath`, which drops empty and `.` components and
resolves each `..` against the lexical parent (at the root, `..` stays at
the root).  Symbolic links are NOT resolved (that would be
`os.path.realpath`).  An absolute path is modelled by its list of
components. -/

/-- Split a path string on `/` into its (possibly empty) components. -/
def splitSlash : Str → List Str
  | [] => [[]]
  | c :: rest =>
    if c = '/' then [] :: splitSlash rest
    else
      match splitSlash rest with
      | [] => [[c]]
      | seg :: segs => (c :: seg) :: segs

/-- `os.path.normpath` component processing for an absolute path:
empty and `.` components vanish, `..` pops the last surviving component
(at the root it is dropped). -/
def normComponents (comps : List Str) : List Str :=
  comps.foldl
    (fun acc c =>
      if c = [] ∨ c = ['.'] then acc
      else if c = ['.', '.'] then acc.dropLast
      else acc ++ [c])
    []

/-- Render an absolute path from its normalized components. -/
def pathToStr (comps : List Str) : Str :=
  match comps with
  | [] => ['/']
  | c :: rest => '/' :: c ++ pathToStr1 rest
where
  pathToStr1 : List Str → Str
  | [] => []
  | c :: rest => '/' :: c ++ pathToStr1 rest

/-- `os.path.join(root, rel)` for an absolute `root` given by components:
an absolute `rel` discards `root`. -/
def joinComponents (root : List Str) (rel : Str) : List Str :=
  if startsWithL rel ['/'] then splitSlash rel
  else root ++ splitSlash rel

/-- Embedding of `_resolve_path(project_root, relative_path)`
(file_operations.py lines 13-19): compute
`abs_path = abspath(join(root, rel))`, then accept iff the *string*
`abs_path` starts with the string `abspath(root)`; on rejection raise
(modelled as `Except.error`) the traversal message. -/
def resolve_path (root : List Str) (rel : Str) : Except Str Str :=
  let absPath : Str := pathToStr (normComponents (joinComponents root rel))
  let rootStr : Str := pathToStr (normComponents root)
  if startsWithL absPath rootStr then Except.ok absPath
  else Except.error (("Attempted path traversal: ".data) ++ rel)

/-- Specification-level notion of "inside the root": the resolved string,
re-split into components, extends the canonicalized root components. -/
def insideRootB (root : List Str) (s : Str) : Bool :=
  isCompPre (normComponents root) (normComponents (splitSlash s))
where
  isCompPre : List Str → List Str → Bool
  | [], _ => true
  | _ :: _, [] => false
  | a :: as, b :: bs => a = b && isCompPre as bs

/-! ## Python `str.replace` (global, non-overlapping, left to right)

`s.replace(old, new)` scans `s` from the left; at each position, if `old`
is a prefix of the remainder the occurrence is replaced and the scan
resumes after it, otherwise one character is kept.  For `old = ""`,
Python inserts `new` between every character and at both ends. -/

/-- `s.replace("", new)`: `new` interleaved between all characters. -/
def interleaveEmpty (new : Str) : Str → Str
  | [] => new
  | c :: rest => new ++ c :: interleaveEmpty new rest

/-- `s.replace(old, new)` for nonempty `old = o :: os`. -/
def pyReplaceNE (o : Char) (os new : Str) : Str → Str
  | [] => []
  | c :: rest =>
    if startsWithL (c :: rest) (o :: os) then
      new ++ pyReplaceNE o os new (rest.drop os.length)
    else
      c :: pyReplaceNE o os new rest
termination_by s => s.length
decreasing_by
  · simp only [List.length_drop, List.length_cons]; omega
  · simp only [List.length_cons]; omega

/-- Python `s.replace(old, new)`. -/
def pyReplace (s old new : Str) : Str :=
  match old with
  | [] => interleaveEmpty new s
  | o :: os => pyReplaceNE o os new s

/-- Specification-level view of global replacement: the segments of `s`
between the greedy left-to-right non-overlapping occurrences of the
nonempty pattern `o :: os`. -/
def splitOnOcc (o : Char) (os : Str) : Str → List Str
  | [] => [[]]
  | c :: rest =>
    if startsWithL (c :: rest) (o :: os) then
      [] :: splitOnOcc o os (rest.drop os.length)
    else
      match splitOnOcc o os rest with
      | [] => [[c]]
      | seg :: segs => (c :: seg) :: segs
termination_by s => s.length
decreasing_by
  · simp only [List.length_drop, List.length_cons]; omega
  · simp only [List.length_cons]; omega

/-- Join segments with a separator (inverse view of `splitOnOcc`). -/
def joinWith (sep : Str) : List Str → Str
  | [] => []
  | [x] => x
  | x :: y :: xs => x ++ sep ++ joinWith sep (y :: xs)

/-! ## Filesystem and the file operations

The filesystem reachable from the project root is an association list
from resolved relative path to content; `resolve_path` is modelled above,
so the operations below index the filesystem by the relative path
directly (all claims about them concern in-root paths).  OS-level
failures other than absence of the file are outside the model. -/

/-- Filesystem: resolved relative path to file content. -/
abbrev FS := List (Str × Str)

/-- Look up a path in the filesystem. -/
def fsRead : FS → Str → Option Str
  | [], _ => Option.none
  | (q, c) :: rest, p => if q = p then some c else fsRead rest p

/-- Create-or-overwrite a path (parent directories are implicit here,
matching `os.makedirs(..., exist_ok=True)` before the write). -/
def fsWrite : FS → Str → Str → FS
  | [], p, c => [(p, c)]
  | (q, d) :: rest, p, c =>
    if q = p then (q, c) :: rest else (q, d) :: fsWrite rest p c

/-- Embedding of `read_file(project_root, file_path)` (file_operations.py
lines 22-51): returns the content, or an error *string* starting with
the text `Error` when the file is absent. -/
def read_file (fs : FS) (p : Str) : Str :=
  match fsRead fs p with
  | some c => c
  | Option.none => ("Error reading file: File not found at ".data) ++ p

/-- Embedding of `write_file(project_root, file_path, content)`
(lines 118-150): unconditional create-or-overwrite, success message. -/
def write_file (fs : FS) (p content : Str) : FS × Str :=
  (fsWrite fs p content, ("Successfully wrote to ".data) ++ p)

/-- Embedding of `edit_file(project_root, file_path, old, new)`
(lines 153-182): read; if the returned string does **not** start with
`Error`, globally replace and write back; otherwise return the read
result unchanged and perform no write. -/
def edit_file (fs : FS) (p old new : Str) : FS × Str :=
  let content := read_file fs p
  if startsWithL content ("Error".data) then (fs, content)
  else write_file fs p (pyReplace content old new)

/-! ## Line-range read -/

/-- Python `file.readlines()`: split after each newline, keeping the
terminator; a final segment without a terminator is kept, an empty file
yields no lines. -/
def pyReadlines : Str → List Str
  | [] => []
  | c :: rest =>
    if c = '\n' then ['\n'] :: pyReadlines rest
    else
      match pyReadlines rest with
      | [] => [[c]]
      | l :: ls => (c :: l) :: ls

/-- Render an integer in decimal (for the embedded error messages). -/
def intToStr (i : Int) : Str := (toString i).data

/-- Embedding of `read_file_lines(project_root, file_path, from_line,
to_line)` (lines 54-115).  Validation happens before the file is opened;
`from_line > len(lines)` is a hard error; an oversized `to_line` is
silently clamped; the selected slice is `lines[from_line-1 :
min(to_line, total)]` joined back together. -/
def read_file_lines (fs : FS) (p : Str) (fromLine toLine : Int) : Str :=
  if fromLine < 1 ∨ toLine < 1 then
    ("Error reading file lines: Line numbers must be 1 or greater. Got from_line=".data)
      ++ intToStr fromLine ++ (", to_line=".data) ++ intToStr toLine
  else if fromLine > toLine then
    ("Error reading file lines: from_line (".data) ++ intToStr fromLine
      ++ (") cannot be greater than to_line (".data) ++ intToStr toLine ++ (")".data)
  else
    match fsRead fs p with
    | Option.none => ("Error reading file lines: File not found at ".data) ++ p
    | some content =>
      let lines := pyReadlines content
      let total : Int := lines.length
      if fromLine > total then
        ("Error reading file lines: from_line (".data) ++ intToStr fromLine
          ++ (") exceeds file length (".data) ++ intToStr total ++ (" lines)".data)
      else
        let lo : Nat := (fromLine - 1).toNat
        let hi : Nat := (min toLine total).toNat
        ((lines.drop lo).take (hi - lo)).flatten

/-! ## Search engine (`search_text`)

Python `re` is modelled on the subset the search claims exercise:
patterns built from literal characters, the metacharacter `.` (any
character except a newline) and backslash-escaped literal characters.
Other metacharacters are outside the modelled subset and compilation is
modelled as failing (Python rejects some of them, e.g. a leading `*`,
and compiles others; every pattern appearing in a theorem below is one
on which the model and `re` agree).  `re.escape` followed by compilation
maps every character of the term to a literal item.  `re.IGNORECASE` is
modelled by case-folding both sides of a literal comparison. -/

/-- One element of a compiled pattern. -/
inductive RItem where
  | lit (c : Char)
  | dot
deriving DecidableEq

/-- A compiled pattern: a sequence of single-character items. -/
abbrev RPattern := List RItem

/-- Metacharacters outside the modelled subset. -/
def isMetaChar (c : Char) : Bool :=
  c ∈ ['*', '+', '?', '(', ')', '[', ']', '|', '^', '$',
       Char.ofNat 123, Char.ofNat 125]

/-- Model of `re.compile` on the subset above; `Option.none` models
`re.error`. -/
def compileRegexChars : Str → Option RPattern
  | [] => some []
  | '\\' :: [] => Option.none
  | '\\' :: c :: rest =>
    (compileRegexChars rest).map (fun ps => RItem.lit c :: ps)
  | c :: rest =>
    if isMetaChar c then Option.none
    else (compileRegexChars rest).map
      (fun ps => (if c = '.' then RItem.dot else RItem.lit c) :: ps)

/-- `re.compile(re.escape(term))`: every character becomes a literal. -/
def escapeLit (term : Str) : RPattern := term.map RItem.lit

/-- Case-folded character comparison (`re.IGNORECASE` when `ci`). -/
def charFoldEq (ci : Bool) (a b : Char) : Bool :=
  if ci then a.toLower = b.toLower else a = b

/-- Whether one pattern item matches one character. -/
def itemMatches (ci : Bool) : RItem → Char → Bool
  | RItem.lit p, c => charFoldEq ci p c
  | RItem.dot, c => !(c = '\n')

/-- Whether the pattern matches an initial segment of the string. -/
def matchesAt (ci : Bool) : RPattern → Str → Bool
  | [], _ => true
  | _ :: _, [] => false
  | it :: ps, c :: cs => itemMatches ci it c && matchesAt ci ps cs

/-- Specification-level literal comparison: the term is an initial
segment of the string, character by character up to case folding. -/
def ciIsPre (ci : Bool) : Str → Str → Bool
  | [], _ => true
  | _ :: _, [] => false
  | p :: ps, c :: cs => charFoldEq ci p c && ciIsPre ci ps cs

/-- `pattern.finditer(line)`: non-overlapping matches, left to right; a
match of length `L > 0` resumes after its end, an empty match advances
one position and is also produced at the end of the string.  `fuel`
bounds the recursion; `length + 1` steps always suffice. -/
def finditerFuel (ci : Bool) (pat : RPattern) :
    Nat → Nat → Str → List (Nat × Nat × Str)
  | 0, _, _ => []
  | _ + 1, pos, [] => if pat.isEmpty then [(pos, pos, [])] else []
  | fuel + 1, pos, c :: cs =>
    if matchesAt ci pat (c :: cs) then
      (pos, pos + pat.length, (c :: cs).take pat.length)
        :: finditerFuel ci pat fuel (pos + max pat.length 1)
             ((c :: cs).drop (max pat.length 1))
    else
      finditerFuel ci pat fuel (pos + 1) cs

/-- All matches of the pattern on one line. -/
def finditer (ci : Bool) (pat : RPattern) (s : Str) :
    List (Nat × Nat × Str) :=
  finditerFuel ci pat (s.length + 1) 0 s

/-- One record of `results['results']`. -/
structure MatchRec where
  file_path : Str
  line_number : Nat
  line_content : Str
  match_start : Nat
  match_end : Nat
  matched_text : Str
deriving DecidableEq

/-- The result dictionary of `search_text`. -/
structure SearchResults where
  total_matches : Nat
  files_searched : Nat
  results : List MatchRec
  error : Option Str
deriving DecidableEq

/-- The value every search starts from. -/
def initResults : SearchResults :=
  { total_matches := 0, files_searched := 0, results := [], error := Option.none }

/-- The files the walk visits, already pruned (hidden and build
directories, hidden files) and filtered by extension, in walk order;
each file is its relative path with its list of physical lines (line
terminators included, as iterating a Python file object yields them). -/
abbrev Corpus := List (Str × List Str)

/-- Render a natural number in decimal. -/
def natToStr (n : Nat) : Str := (toString n).data

/-- `line.rstrip(CHR(10) CHR(13))`: drop trailing newline characters. -/
def rstripNL (s : Str) : Str :=
  (s.reverse.dropWhile (fun c => c = '\n' || c = '\r')).reverse

/-- The truncation message placed in `results['error']` at the cap. -/
def truncMsg (maxR : Nat) : Str :=
  ("Search stopped at ".data) ++ natToStr maxR ++ (" results limit".data)

/-- The invalid-pattern message (the trailing `str(e)` text of the
`re.error` is abstracted away). -/
def invalidPatternMsg : Str := "Invalid regex pattern".data

/-- The inner per-match loop of `search_text`: before *appending* a
match the cap is tested; at the cap the error field is set and the whole
search stops (`return results` in the source, modelled by the `true`
flag). -/
def addMatches (maxR : Nat) (rel : Str) (ln : Nat) (line : Str) :
    List (Nat × Nat × Str) → SearchResults → SearchResults × Bool
  | [], acc => (acc, false)
  | (s, e, t) :: ms, acc =>
    if maxR ≤ acc.total_matches then
      ({ acc with error := some (truncMsg maxR) }, true)
    else
      addMatches maxR rel ln line ms
        { acc with
          results := acc.results ++ [⟨rel, ln, rstripNL line, s, e, t⟩],
          total_matches := acc.total_matches + 1 }

/-- The per-line loop over one file (`enumerate(f, 1)`). -/
def searchLinesGo (ci : Bool) (pat : RPattern) (maxR : Nat) (rel : Str) :
    Nat → List Str → SearchResults → SearchResults × Bool
  | _, [], acc => (acc, false)
  | ln, line :: rest, acc =>
    match addMatches maxR rel ln line (finditer ci pat line) acc with
    | (acc2, true) => (acc2, true)
    | (acc2, false) => searchLinesGo ci pat maxR rel (ln + 1) rest acc2

/-- The walk over the corpus; `files_searched` is incremented when a
file is opened; a stop inside a file ends the entire walk. -/
def searchFiles (ci : Bool) (pat : RPattern) (maxR : Nat) :
    Corpus → SearchResults → SearchResults
  | [], acc => acc
  | (rel, lines) :: rest, acc =>
    let acc1 := { acc with files_searched := acc.files_searched + 1 }
    match searchLinesGo ci pat maxR rel 1 lines acc1 with
    | (acc2, true) => acc2
    | (acc2, false) => searchFiles ci pat maxR rest acc2

/-- Embedding of `search_text(project_root, search_term, file_extensions,
case_sensitive, regex_mode, max_results)` (file_operations.py lines
216-322), from the point where the walk order and file filter have
produced `corpus`.  `regex_mode` compiles the term (failure yields the
invalid-pattern error result); otherwise the escaped term is used;
`IGNORECASE` is the negation of `case_sensitive`. -/
def search_text (corpus : Corpus) (term : Str)
    (case_sensitive regex_mode : Bool) (maxR : Nat) : SearchResults :=
  if regex_mode then
    match compileRegexChars term with
    | Option.none => { initResults with error := some invalidPatternMsg }
    | some pat => searchFiles (!case_sensitive) pat maxR corpus initResults
  else
    searchFiles (!case_sensitive) (escapeLit term) maxR corpus initResults

/-- Matches contributed by one line. -/
def lineMatchCount (ci : Bool) (pat : RPattern) (line : Str) : Nat :=
  (finditer ci pat line).length

/-- Matches contributed by one file. -/
def fileMatchCount (ci : Bool) (pat : RPattern) (lines : List Str) : Nat :=
  (lines.map (lineMatchCount ci pat)).sum

/-- Matches contained in the whole corpus. -/
def corpusMatchCount (ci : Bool) (pat : RPattern) (corpus : Corpus) : Nat :=
  (corpus.map (fun f => fileMatchCount ci pat f.2)).sum

/-! ## Action adapters (`file_actions.py`)

The planner-supplied `action_input` is a mapping from parameter name to
a JSON-like value.  The `AgentState` record below keeps the three fields
the file-action adapters read or write (`files_content`, `action_input`,
`action_output`); the remaining fields of the source `AgentState`
(task, messages, plan, thought process, next_action, final_answer,
model_provider) pass through `state.copy()` untouched and are omitted.
The aliasing behaviour of `state.copy()` itself is modelled explicitly
in the heap section below.  Every adapter is a total function: no
unhandled fault is modelled because none is reachable in the source
paths embedded here. -/

/-- A planner-supplied parameter value. -/
inductive PVal where
  | vStr (s : Str)
  | vInt (n : Int)
  | vBool (b : Bool)
  | vList (l : List Str)
deriving DecidableEq

/-- A value stored in `files_content`: file text or a search result. -/
inductive FCVal where
  | text (s : Str)
  | search (r : SearchResults)
deriving DecidableEq

/-- `action_input.get(key)`. -/
def getInput : List (Str × PVal) → Str → Option PVal
  | [], _ => Option.none
  | (k, v) :: rest, key => if k = key then some v else getInput rest key

/-- `action_input.get(key, "")` followed by the falsiness test the
adapters use: a missing or non-string value is modelled as the empty
string (the claims below only exercise string-valued parameters). -/
def getStrD (inp : List (Str × PVal)) (key : Str) : Str :=
  match getInput inp key with
  | some (PVal.vStr s) => s
  | _ => []

/-- Python dict item assignment: replace in place or append. -/
def dictSet : List (Str × FCVal) → Str → FCVal → List (Str × FCVal)
  | [], k, v => [(k, v)]
  | (k0, v0) :: rest, k, v =>
    if k0 = k then (k0, v) :: rest else (k0, v0) :: dictSet rest k v

/-- The value-level slice of the source `AgentState`. -/
structure AgentState where
  files_content : List (Str × FCVal)
  action_input : List (Str × PVal)
  action_output : Str
deriving DecidableEq

/-- Embedding of `read_file_action` (file_actions.py lines 15-51). -/
def read_file_action (fs : FS) (st : AgentState) : AgentState :=
  let fp := getStrD st.action_input ("file_path".data)
  if fp = [] then
    { st with action_output :=
        "Error: file_path parameter is missing for read_file action.".data }
  else
    let result := read_file fs fp
    let st1 := { st with files_content := dictSet st.files_content fp (FCVal.text result) }
    if startsWithL result ("Error".data) then
      { st1 with action_output :=
          ("Read file ".data) ++ fp ++ (": Failed - ".data) ++ result }
    else
      { st1 with action_output :=
          ("Successfully read content of ".data) ++ fp ++ (".".data) }

/-- A heap of dictionary objects; a reference is an index. -/
abbrev Heap := List (List (Str × FCVal))

/-- Dereference. -/
def heapGet (h : Heap) (r : Nat) : List (Str × FCVal) := h.getD r []

/-- In-place item assignment on the dictionary object `r`. -/
def heapSetKey (h : Heap) (r : Nat) (k : Str) (v : FCVal) : Heap :=
  h.set r (dictSet (heapGet h r) k v)

/-- The state record with `files_content` held by reference. -/
structure AgentStateRef where
  files_content : Nat
  action_input : List (Str × PVal)
  action_output : Str
deriving DecidableEq

/-- `read_file_action` with the reference semantics of `state.copy()`
made explicit: the returned state is a fresh outer record whose
`files_content` field is the *same reference* as the input state's, and
the store into `files_content` mutates the shared heap cell. -/
def read_file_action_ref (fs : FS) (st : AgentStateRef) (h : Heap) :
    AgentStateRef × Heap :=
  let fp := getStrD st.action_input ("file_path".data)
  if fp = [] then
    ({ st with action_output :=
        "Error: file_path parameter is missing for read_file action.".data }, h)
  else
    let result := read_file fs fp
    let h2 := heapSetKey h st.files_content fp (FCVal.text result)
    if startsWithL result ("Error".data) then
      ({ st with action_output :=
          ("Read file ".data) ++ fp ++ (": Failed - ".data) ++ result }, h2)
    else
      ({ st with action_output :=
          ("Successfully read content of ".data) ++ fp ++ (".".data) }, h2)

/-! ## Orchestrator routing (`workflow/graph.py`)

`decide_next_step` (lines 33-53) maps the `next_action` field to a
branch label; `add_conditional_edges` (lines 76-88) supplies the
label-to-node dictionary, through which the LangGraph runtime resolves
the returned label (a label absent from the dictionary is a runtime
`KeyError`, aborting the step). -/

/-- Embedding of `decide_next_step`. -/
def decide_next_step (next_action : Str) : Str :=
  if next_action = ("finish".data) then "finish".data
  else if next_action = ("read_file".data) then "read_file".data
  else if next_action = ("read_file_lines".data) then "read_file_lines".data
  else if next_action = ("write_file".data) then "write_file".data
  else if next_action = ("edit_file".data) then "edit_file".data
  else if next_action = ("list_directory".data) then "list_directory".data
  else if next_action = ("search_text".data) then "search_text".data
  else "determine_next_action".data

/-- The dictionary passed to `add_conditional_edges`. -/
def conditional_edge_map : List (Str × Str) :=
  [ (("read_file".data), ("read_file".data)),
    (("read_file_lines".data), ("read_file_lines".data)),
    (("write_file".data), ("write_file".data)),
    (("edit_file".data), ("edit_file".data)),
    (("list_directory".data), ("list_directory".data)),
    (("search_text".data), ("search_text".data)),
    (("finish".data), ("generate_solution".data)) ]

/-- Dictionary lookup used by the LangGraph branch resolution. -/
def lookupEdge : List (Str × Str) → Str → Option Str
  | [], _ => Option.none
  | (k, v) :: rest, key => if k = key then some v else lookupEdge rest key

/-- The node the workflow transitions to out of `determine_next_action`:
the branch label from `decide_next_step`, resolved through the edge
dictionary; `Option.none` models the runtime `KeyError`. -/
def route_from_decide (next_action : Str) : Option Str :=
  lookupEdge conditional_edge_map (decide_next_step next_action)

/-! ## Named error messages and concrete fixtures used by the theorems -/

/-- The first invalid-range message of `read_file_lines`. -/
def msgLineLow (fromLine toLine : Int) : Str :=
  ("Error reading file lines: Line numbers must be 1 or greater. Got from_line=".data)
    ++ intToStr fromLine ++ (", to_line=".data) ++ intToStr toLine

/-- The second invalid-range message of `read_file_lines`. -/
def msgLineOrder (fromLine toLine : Int) : Str :=
  ("Error reading file lines: from_line (".data) ++ intToStr fromLine
    ++ (") cannot be greater than to_line (".data) ++ intToStr toLine ++ (")".data)

/-- The out-of-bounds message of `read_file_lines`. -/
def msgOutOfBounds (fromLine total : Int) : Str :=
  ("Error reading file lines: from_line (".data) ++ intToStr fromLine
    ++ (") exceeds file length (".data) ++ intToStr total ++ (" lines)".data)

/-- A file whose genuine content already starts with the word `Error`. -/
def fsErrContent : FS := [ (("a.txt".data), ("Error: legacy log".data)) ]

/-- The overlap counterexample file for edit idempotence. -/
def fsAab : FS := [ (("f.py".data), ("aab".data)) ]

/-- A five-line file. -/
def fsFive : FS := [ (("f.txt".data), ("l1\nl2\nl3\nl4\nl5\n".data)) ]

/-- A corpus with four matches for the term `x`. -/
def corpusC6 : Corpus :=
  [ (("a.txt".data), [("x x\n".data), ("x\n".data)]),
    (("b.txt".data), [("x\n".data)]) ]

/-- One line `axb`. -/
def corpusAxb : Corpus := [ (("f.txt".data), [("axb\n".data)]) ]

/-- One line `a.b`. -/
def corpusAdotb : Corpus := [ (("f.txt".data), [("a.b\n".data)]) ]

/-- One line `Foo`. -/
def corpusFoo : Corpus := [ (("f.txt".data), [("Foo\n".data)]) ]

/-- Filesystem for the aliasing run. -/
def fsC2 : FS := [ (("a.txt".data), ("hi".data)) ]

/-- Input state for the aliasing run: its `files_content` is the
dictionary object at heap cell 0. -/
def stC2 : AgentStateRef :=
  { files_content := 0,
    action_input := [ (("file_path".data), PVal.vStr ("a.txt".data)) ],
    action_output := [] }

/-- Initial heap for the aliasing run: one empty dictionary. -/
def heapC2 : Heap := [[]]

/-- A file whose content begins with the word `Error`. -/
def fsC10 : FS := [ (("log.txt".data), ("Error budget report".data)) ]

/-- A `read_file` request for that file. -/
def stC10 : AgentState :=
  { files_content := [],
    action_input := [ (("file_path".data), PVal.vStr ("log.txt".data)) ],
    action_output := [] }

/-! ## Supporting lemmas -/

theorem occursIn_nil (s : Str) : occursIn [] s = true := by
  cases s with
  | nil => rfl
  | cons c rest => simp [occursIn, startsWithL]

theorem pyReplaceNE_no_occ (o : Char) (os new s : Str)
    (h : occursIn (o :: os) s = false) : pyReplaceNE o os new s = s := by
  induction s using pyReplaceNE.induct o os new with
  | case1 => rw [pyReplaceNE]
  | case2 c rest hpre ih =>
      exfalso
      simp only [occursIn, Bool.or_eq_false_iff] at h
      exact absurd hpre (by simp [h.1])
  | case3 c rest hpre ih =>
      simp only [occursIn, Bool.or_eq_false_iff] at h
      rw [pyReplaceNE, if_neg (by simp [hpre]), ih h.2]

theorem pyReplace_no_occ (s old new : Str) (h : occursIn old s = false) :
    pyReplace s old new = s := by
  cases old with
  | nil => rw [occursIn_nil] at h; exact absurd h (by simp)
  | cons o os => exact pyReplaceNE_no_occ o os new s h

theorem splitOnOcc_ne_nil (o : Char) (os s : Str) : splitOnOcc o os s ≠ [] := by
  induction s using splitOnOcc.induct o os with
  | case1 => rw [splitOnOcc]; simp
  | case2 c rest hpre ih => rw [splitOnOcc, if_pos hpre]; simp
  | case3 c rest hpre hnil ih => exact absurd hnil ih
  | case4 c rest hpre seg segs hq ih =>
      rw [splitOnOcc, if_neg hpre, hq]
      simp

theorem joinWith_cons_cons (new : Str) (c : Char) (seg : Str) (segs : List Str) :
    joinWith new ((c :: seg) :: segs) = c :: joinWith new (seg :: segs) := by
  cases segs with
  | nil => rfl
  | cons y ys => simp [joinWith]

theorem joinWith_nil_cons (new : Str) (seg : Str) (segs : List Str) :
    joinWith new ([] :: seg :: segs) = new ++ joinWith new (seg :: segs) := by
  simp [joinWith]

theorem pyReplaceNE_eq_join (o : Char) (os new s : Str) :
    pyReplaceNE o os new s = joinWith new (splitOnOcc o os s) := by
  induction s using splitOnOcc.induct o os with
  | case1 => rw [pyReplaceNE, splitOnOcc]; rfl
  | case2 c rest hpre ih =>
      rw [pyReplaceNE, if_pos hpre, splitOnOcc, if_pos hpre]
      rcases hq : splitOnOcc o os (rest.drop os.length) with _ | ⟨seg, segs⟩
      · exact absurd hq (splitOnOcc_ne_nil o os _)
      · rw [joinWith_nil_cons, ih, hq]
  | case3 c rest hpre hnil ih => exact absurd hnil (splitOnOcc_ne_nil o os rest)
  | case4 c rest hpre seg segs hq ih =>
      rw [hq] at ih
      rw [pyReplaceNE, if_neg hpre, splitOnOcc, if_neg hpre, hq, joinWith_cons_cons, ih]

theorem fsRead_fsWrite_self (fs : FS) (p c : Str) :
    fsRead (fsWrite fs p c) p = some c := by
  induction fs with
  | nil => simp [fsWrite, fsRead]
  | cons e rest ih =>
      obtain ⟨q, d⟩ := e
      by_cases h : q = p
      · simp [fsWrite, fsRead, h]
      · simp [fsWrite, fsRead, h, ih]

theorem fsWrite_self (fs : FS) (p c : Str) (h : fsRead fs p = some c) :
    fsWrite fs p c = fs := by
  induction fs with
  | nil => simp [fsRead] at h
  | cons e rest ih =>
      obtain ⟨q, d⟩ := e
      by_cases hq : q = p
      · simp [fsRead, hq] at h
        simp [fsWrite, hq, h]
      · simp [fsRead, hq] at h
        simp [fsWrite, hq, ih h]

theorem matchesAt_escapeLit (ci : Bool) (term s : Str) :
    matchesAt ci (escapeLit term) s = ciIsPre ci term s := by
  induction term generalizing s with
  | nil => rfl
  | cons p ps ih =>
      cases s with
      | nil => rfl
      | cons c cs =>
          have := ih cs
          simp only [escapeLit] at this
          simp [escapeLit, matchesAt, ciIsPre, itemMatches, this]

theorem addMatches_spec (maxR : Nat) (rel : Str) (ln : Nat) (line : Str) :
    ∀ (ms : List (Nat × Nat × Str)) (acc : SearchResults),
    acc.total_matches ≤ maxR →
    ((addMatches maxR rel ln line ms acc).1.total_matches
        = min (acc.total_matches + ms.length) maxR)
    ∧ ((addMatches maxR rel ln line ms acc).1.files_searched = acc.files_searched)
    ∧ (acc.results.length = acc.total_matches →
        (addMatches maxR rel ln line ms acc).1.results.length
          = (addMatches maxR rel ln line ms acc).1.total_matches)
    ∧ ((addMatches maxR rel ln line ms acc).2 = true
        ↔ maxR < acc.total_matches + ms.length)
    ∧ ((addMatches maxR rel ln line ms acc).2 = true →
        (addMatches maxR rel ln line ms acc).1.error = some (truncMsg maxR))
    ∧ ((addMatches maxR rel ln line ms acc).2 = false →
        (addMatches maxR rel ln line ms acc).1.error = acc.error) := by
  intro ms
  induction ms with
  | nil =>
      intro acc h
      refine ⟨?_, rfl, fun hinv => hinv, ?_, ?_, fun _ => rfl⟩
      · show acc.total_matches = min (acc.total_matches + List.length []) maxR
        simp only [List.length_nil, Nat.add_zero]
        omega
      · show (false = true) ↔ maxR < acc.total_matches + List.length []
        simp only [List.length_nil, Nat.add_zero, Bool.false_eq_true, false_iff]
        omega
      · exact fun hh => absurd hh Bool.false_ne_true
  | cons m ms ih =>
      intro acc h
      obtain ⟨s, e, t⟩ := m
      by_cases hcap : maxR ≤ acc.total_matches
      · have hrun : addMatches maxR rel ln line ((s, e, t) :: ms) acc
            = ({ acc with error := some (truncMsg maxR) }, true) := by
          rw [addMatches, if_pos hcap]
        rw [hrun]
        refine ⟨?_, rfl, fun hinv => hinv, ?_, fun _ => rfl, ?_⟩
        · show acc.total_matches = min (acc.total_matches + ((s, e, t) :: ms).length) maxR
          simp only [List.length_cons]
          omega
        · show (true = true) ↔ maxR < acc.total_matches + ((s, e, t) :: ms).length
          simp only [List.length_cons, true_iff]
          omega
        · exact fun hf => nomatch hf
      · set acc2 : SearchResults :=
          { acc with
            results := acc.results ++ [⟨rel, ln, rstripNL line, s, e, t⟩],
            total_matches := acc.total_matches + 1 } with hacc2
        have hrun : addMatches maxR rel ln line ((s, e, t) :: ms) acc
            = addMatches maxR rel ln line ms acc2 := by
          rw [addMatches, if_neg hcap]
        have h2 : acc2.total_matches ≤ maxR := by
          show acc.total_matches + 1 ≤ maxR
          omega
        obtain ⟨i1, i2, i3, i4, i5, i6⟩ := ih acc2 h2
        rw [hrun]
        refine ⟨?_, i2, ?_, ?_, i5, i6⟩
        · rw [i1]
          show min (acc.total_matches + 1 + ms.length) maxR
              = min (acc.total_matches + ((s, e, t) :: ms).length) maxR
          simp only [List.length_cons]
          omega
        · intro hinv
          apply i3
          show (acc.results ++ [MatchRec.mk rel ln (rstripNL line) s e t]).length
              = acc.total_matches + 1
          simp [hinv]
        · rw [i4]
          show maxR < acc.total_matches + 1 + ms.length
              ↔ maxR < acc.total_matches + ((s, e, t) :: ms).length
          simp only [List.length_cons]
          omega



theorem searchLinesGo_spec (ci : Bool) (pat : RPattern) (maxR : Nat) (rel : Str) :
    ∀ (lines : List Str) (ln : Nat) (acc : SearchResults),
    acc.total_matches ≤ maxR →
    ((searchLinesGo ci pat maxR rel ln lines acc).1.total_matches
        = min (acc.total_matches + fileMatchCount ci pat lines) maxR)
    ∧ ((searchLinesGo ci pat maxR rel ln lines acc).1.files_searched = acc.files_searched)
    ∧ (acc.results.length = acc.total_matches →
        (searchLinesGo ci pat maxR rel ln lines acc).1.results.length
          = (searchLinesGo ci pat maxR rel ln lines acc).1.total_matches)
    ∧ ((searchLinesGo ci pat maxR rel ln lines acc).2 = true
        ↔ maxR < acc.total_matches + fileMatchCount ci pat lines)
    ∧ ((searchLinesGo ci pat maxR rel ln lines acc).2 = true →
        (searchLinesGo ci pat maxR rel ln lines acc).1.error = some (truncMsg maxR))
    ∧ ((searchLinesGo ci pat maxR rel ln lines acc).2 = false →
        (searchLinesGo ci pat maxR rel ln lines acc).1.error = acc.error) := by
  intro lines
  induction lines with
  | nil =>
      intro ln acc h
      refine ⟨?_, rfl, fun hinv => hinv, ?_, ?_, fun _ => rfl⟩
      · show acc.total_matches = min (acc.total_matches + fileMatchCount ci pat []) maxR
        simp only [fileMatchCount, List.map_nil, List.sum_nil, Nat.add_zero]
        omega
      · show (false = true) ↔ maxR < acc.total_matches + fileMatchCount ci pat []
        simp only [fileMatchCount, List.map_nil, List.sum_nil, Nat.add_zero,
          Bool.false_eq_true, false_iff]
        omega
      · exact fun hh => absurd hh Bool.false_ne_true
  | cons line rest ih =>
      intro ln acc h
      obtain ⟨a1, a2, a3, a4, a5, a6⟩ :=
        addMatches_spec maxR rel ln line (finditer ci pat line) acc h
      have hcount : fileMatchCount ci pat (line :: rest)
          = lineMatchCount ci pat line + fileMatchCount ci pat rest := by
        simp [fileMatchCount]
      have hLc : (finditer ci pat line).length = lineMatchCount ci pat line := rfl
      rw [hLc] at a1 a4
      rcases hA : addMatches maxR rel ln line (finditer ci pat line) acc with ⟨accA, bA⟩
      rw [hA] at a1 a2 a3 a4 a5 a6
      simp only at a1 a2 a3 a4 a5 a6
      cases bA with
      | true =>
          have hstop : maxR < acc.total_matches + lineMatchCount ci pat line := a4.mp rfl
          have hrun : searchLinesGo ci pat maxR rel ln (line :: rest) acc = (accA, true) := by
            rw [searchLinesGo, hA]
          rw [hrun]
          refine ⟨?_, a2, fun hinv => a3 hinv, ?_, fun _ => a5 rfl, ?_⟩
          · rw [a1, hcount]
            omega
          · show (true = true) ↔ maxR < acc.total_matches + fileMatchCount ci pat (line :: rest)
            rw [hcount]
            simp only [true_iff]
            omega
          · exact fun hf => nomatch hf
      | false =>
          have hnostop : ¬ (maxR < acc.total_matches + lineMatchCount ci pat line) := by
            intro hlt
            exact absurd (a4.mpr hlt) (by simp)
          have hA1 : accA.total_matches
              = acc.total_matches + lineMatchCount ci pat line := by
            rw [a1]
            omega
          have h2 : accA.total_matches ≤ maxR := by
            rw [a1]
            omega
          obtain ⟨i1, i2, i3, i4, i5, i6⟩ := ih (ln + 1) accA h2
          have hrun : searchLinesGo ci pat maxR rel ln (line :: rest) acc
              = searchLinesGo ci pat maxR rel (ln + 1) rest accA := by
            rw [searchLinesGo, hA]
          rw [hrun]
          refine ⟨?_, by rw [i2, a2], ?_, ?_, i5, ?_⟩
          · rw [i1, hA1, hcount]
            omega
          · intro hinv
            exact i3 (a3 hinv)
          · rw [i4, hA1, hcount]
            omega
          · intro hf
            rw [i6 hf, a6 rfl]

theorem searchFiles_spec (ci : Bool) (pat : RPattern) (maxR : Nat) :
    ∀ (corpus : Corpus) (acc : SearchResults),
    acc.total_matches ≤ maxR →
    ((searchFiles ci pat maxR corpus acc).total_matches
        = min (acc.total_matches + corpusMatchCount ci pat corpus) maxR)
    ∧ (acc.results.length = acc.total_matches →
        (searchFiles ci pat maxR corpus acc).results.length
          = (searchFiles ci pat maxR corpus acc).total_matches)
    ∧ (maxR < acc.total_matches + corpusMatchCount ci pat corpus →
        (searchFiles ci pat maxR corpus acc).error = some (truncMsg maxR))
    ∧ (acc.total_matches + corpusMatchCount ci pat corpus ≤ maxR →
        (searchFiles ci pat maxR corpus acc).error = acc.error)
    ∧ (maxR < acc.total_matches + corpusMatchCount ci pat corpus →
        ∀ extra, searchFiles ci pat maxR (corpus ++ extra) acc
          = searchFiles ci pat maxR corpus acc) := by
  intro corpus
  induction corpus with
  | nil =>
      intro acc h
      refine ⟨?_, fun hinv => hinv, ?_, fun _ => rfl, ?_⟩
      · show acc.total_matches = min (acc.total_matches + corpusMatchCount ci pat []) maxR
        simp only [corpusMatchCount, List.map_nil, List.sum_nil, Nat.add_zero]
        omega
      · intro hlt
        simp only [corpusMatchCount, List.map_nil, List.sum_nil, Nat.add_zero] at hlt
        omega
      · intro hlt
        simp only [corpusMatchCount, List.map_nil, List.sum_nil, Nat.add_zero] at hlt
        omega
  | cons f rest ih =>
      intro acc h
      obtain ⟨rel, lines⟩ := f
      have hcount : corpusMatchCount ci pat ((rel, lines) :: rest)
          = fileMatchCount ci pat lines + corpusMatchCount ci pat rest := by
        simp [corpusMatchCount]
      obtain ⟨l1, l2, l3, l4, l5, l6⟩ := searchLinesGo_spec ci pat maxR rel lines 1
        { acc with files_searched := acc.files_searched + 1 } h
      rcases hB : searchLinesGo ci pat maxR rel 1 lines
          { acc with files_searched := acc.files_searched + 1 } with ⟨accB, bB⟩
      rw [hB] at l1 l2 l3 l4 l5 l6
      simp only at l1 l2 l3 l4 l5 l6
      cases bB with
      | true =>
          have hstop : maxR < acc.total_matches + fileMatchCount ci pat lines := l4.mp rfl
          have hrun : searchFiles ci pat maxR ((rel, lines) :: rest) acc = accB := by
            rw [searchFiles, hB]
          rw [hrun]
          refine ⟨?_, ?_, fun _ => l5 rfl, ?_, ?_⟩
          · rw [l1, hcount]
            omega
          · intro hinv
            exact l3 hinv
          · intro hle
            rw [hcount] at hle
            omega
          · intro _ extra
            have hrun2 : searchFiles ci pat maxR (((rel, lines) :: rest) ++ extra) acc
                = accB := by
              rw [List.cons_append, searchFiles, hB]
            rw [hrun2]
      | false =>
          have hnostop : ¬ (maxR < acc.total_matches + fileMatchCount ci pat lines) := by
            intro hlt
            exact absurd (l4.mpr hlt) (by simp)
          have hBt : accB.total_matches
              = acc.total_matches + fileMatchCount ci pat lines := by
            rw [l1]
            omega
          have h2 : accB.total_matches ≤ maxR := by
            rw [hBt]
            omega
          obtain ⟨i1, i2, i3, i4, i5⟩ := ih accB h2
          have hrun : searchFiles ci pat maxR ((rel, lines) :: rest) acc
              = searchFiles ci pat maxR rest accB := by
            rw [searchFiles, hB]
          rw [hrun]
          refine ⟨?_, ?_, ?_, ?_, ?_⟩
          · rw [i1, hBt, hcount]
            omega
          · intro hinv
            exact i2 (l3 hinv)
          · intro hlt
            apply i3
            rw [hBt]
            rw [hcount] at hlt
            omega
          · intro hle
            rw [hcount] at hle
            rw [i4 (by rw [hBt]; omega), l6 rfl]
          · intro hlt extra
            have hrun2 : searchFiles ci pat maxR (((rel, lines) :: rest) ++ extra) acc
                = searchFiles ci pat maxR (rest ++ extra) accB := by
              rw [List.cons_append, searchFiles, hB]
            rw [hrun2]
            apply i5
            rw [hBt]
            rw [hcount] at hlt
            omega
theorem search_text_eq_searchFiles (corpus : Corpus) (term : Str) (cs rm : Bool)
    (maxR : Nat) (pat : RPattern)
    (hp : (if rm then compileRegexChars term else some (escapeLit term)) = some pat) :
    search_text corpus term cs rm maxR = searchFiles (!cs) pat maxR corpus initResults := by
  cases rm with
  | true =>
      rw [if_pos rfl] at hp
      simp [search_text, hp]
  | false =>
      rw [if_neg (by simp)] at hp
      obtain rfl := Option.some.inj hp
      simp [search_text]

/-- Claim C6: when the corpus holds at least maxResults + 1 matches the
search returns exactly maxResults match records, total_matches equal to
maxResults and a non-null truncation error, and the output is unchanged
by any files the walk would have visited after the cap (the walk stops
immediately); with fewer than maxResults matches the error field stays
null. -/
theorem c6_search_stops_at_cap (corpus : Corpus) (term : Str) (cs rm : Bool)
    (maxR : Nat) (pat : RPattern)
    (hp : (if rm then compileRegexChars term else some (escapeLit term)) = some pat) :
    (maxR + 1 ≤ corpusMatchCount (!cs) pat corpus →
        (search_text corpus term cs rm maxR).results.length = maxR
        ∧ (search_text corpus term cs rm maxR).total_matches = maxR
        ∧ (search_text corpus term cs rm maxR).error = some (truncMsg maxR)
        ∧ ∀ extra, search_text (corpus ++ extra) term cs rm maxR
            = search_text corpus term cs rm maxR)
    ∧ (corpusMatchCount (!cs) pat corpus < maxR →
        (search_text corpus term cs rm maxR).error = Option.none) := by
  have hst := search_text_eq_searchFiles corpus term cs rm maxR pat hp
  obtain ⟨s1, s2, s3, s4, s5⟩ :=
    searchFiles_spec (!cs) pat maxR corpus initResults (Nat.zero_le maxR)
  have hinit_t : initResults.total_matches = 0 := rfl
  constructor
  · intro hge
    have htot : (search_text corpus term cs rm maxR).total_matches = maxR := by
      rw [hst, s1, hinit_t]
      omega
    refine ⟨?_, htot, ?_, ?_⟩
    · rw [hst]
      rw [hst] at htot
      rw [s2 rfl, htot]
    · rw [hst]
      apply s3
      rw [hinit_t]
      omega
    · intro extra
      rw [hst, search_text_eq_searchFiles (corpus ++ extra) term cs rm maxR pat hp]
      apply s5
      rw [hinit_t]
      omega
  · intro hlt
    rw [hst, s4 (by rw [hinit_t]; omega)]
    rfl

/-- Witness for C6: the literal term x over a three-file corpus with
four matches and a cap of three. -/
theorem c6_witness :
    ((if false then compileRegexChars ("x".data) else some (escapeLit ("x".data)))
        = some (escapeLit ("x".data)))
    ∧ (3 + 1 ≤ corpusMatchCount (!false) (escapeLit ("x".data)) corpusC6)
    ∧ ((search_text corpusC6 ("x".data) false false 3).results.length = 3
        ∧ (search_text corpusC6 ("x".data) false false 3).total_matches = 3
        ∧ (search_text corpusC6 ("x".data) false false 3).error = some (truncMsg 3)
        ∧ ∀ extra, search_text (corpusC6 ++ extra) ("x".data) false false 3
            = search_text corpusC6 ("x".data) false false 3) :=
  ⟨rfl, by decide,
    (c6_search_stops_at_cap corpusC6 ("x".data) false false 3
      (escapeLit ("x".data)) rfl).1 (by decide)⟩

/-- Claim C1: the resolver is claimed to return only paths inside the
root or fail.  Evaluated at the failing input: from root /proj the
relative path ../proj-evil resolves to /proj-evil, outside the root,
yet the startswith string comparison accepts it, because /proj is a
string prefix of /proj-evil.  A sibling whose name is not a string
extension of the root name is rejected, and an ordinary relative path
resolves inside the root. -/
theorem c1_resolve_path_sibling_escape :
    (resolve_path [("proj".data)] ("../proj-evil".data)
        = Except.ok ("/proj-evil".data))
    ∧ (insideRootB [("proj".data)] ("/proj-evil".data) = false)
    ∧ (resolve_path [("proj".data)] ("../other".data)
        = Except.error (("Attempted path traversal: ".data) ++ ("../other".data)))
    ∧ (resolve_path [("proj".data)] ("a/b.txt".data)
        = Except.ok ("/proj/a/b.txt".data)) :=
  ⟨rfl, by decide, rfl, rfl⟩

/-- Claim C2: adapters are claimed to leave the input state value
unchanged with no aliasing of files_content.  Evaluated at the failing
input: state.copy() is shallow, so the returned state holds the same
files_content reference, and the store into it mutates the dictionary
the input state observes: before the step the input state sees an empty
files_content, afterwards it sees the read result. -/
theorem c2_shallow_copy_aliases_files_content :
    ((read_file_action_ref fsC2 stC2 heapC2).1.files_content = stC2.files_content)
    ∧ (heapGet heapC2 stC2.files_content = [])
    ∧ (heapGet (read_file_action_ref fsC2 stC2 heapC2).2 stC2.files_content
        = [ (("a.txt".data), FCVal.text ("hi".data)) ])
    ∧ (heapGet (read_file_action_ref fsC2 stC2 heapC2).2 stC2.files_content
        ≠ heapGet heapC2 stC2.files_content) := by
  refine ⟨rfl, rfl, by decide, by decide⟩

/-- Claim C3: an unrecognized next_action is claimed to route back to
determine_next_action without erroring.  Evaluated at the failing input:
decide_next_step does return the label determine_next_action, but that
label is not a key of the dictionary passed to add_conditional_edges, so
the branch lookup fails (runtime KeyError) instead of reaching the
Decide node; the six operation labels and finish resolve normally. -/
theorem c3_unknown_action_branch_unmapped :
    (decide_next_step ("bogus".data) = ("determine_next_action".data))
    ∧ (route_from_decide ("bogus".data) = Option.none)
    ∧ (lookupEdge conditional_edge_map ("determine_next_action".data) = Option.none)
    ∧ (route_from_decide ("read_file".data) = some ("read_file".data))
    ∧ (route_from_decide ("finish".data) = some ("generate_solution".data)) := by
  refine ⟨by decide, by decide, by decide, by decide, by decide⟩

/-- Claim C4: for an existing file, a from below 1 or above to is an
invalid-range error; a from inside the range but beyond the line count
is an out-of-bounds error; a to beyond the line count silently clamps
and the lines from through the last line are returned. -/
theorem c4_read_file_lines_range (fs : FS) (p content : Str) (fromLine toLine : Int)
    (hread : fsRead fs p = some content) :
    (((fromLine < 1 ∨ fromLine > toLine) →
        read_file_lines fs p fromLine toLine = msgLineLow fromLine toLine ∨
        read_file_lines fs p fromLine toLine = msgLineOrder fromLine toLine))
    ∧ ((1 ≤ fromLine → fromLine ≤ toLine →
        fromLine > ((pyReadlines content).length : Int) →
        read_file_lines fs p fromLine toLine
          = msgOutOfBounds fromLine ((pyReadlines content).length : Int)))
    ∧ ((1 ≤ fromLine → fromLine ≤ ((pyReadlines content).length : Int) →
        toLine > ((pyReadlines content).length : Int) →
        read_file_lines fs p fromLine toLine
          = ((pyReadlines content).drop (fromLine - 1).toNat).flatten)) := by
  refine ⟨?_, ?_, ?_⟩
  · intro h
    rcases h with h | h
    · left
      rw [read_file_lines, if_pos (Or.inl h)]
      rfl
    · by_cases hlow : fromLine < 1 ∨ toLine < 1
      · left
        rw [read_file_lines, if_pos hlow]
        rfl
      · right
        rw [read_file_lines, if_neg hlow, if_pos h]
        rfl
  · intro h1 h2 h3
    have hlow : ¬(fromLine < 1 ∨ toLine < 1) := by omega
    have hord : ¬(fromLine > toLine) := by omega
    rw [read_file_lines, if_neg hlow, if_neg hord, hread]
    simp only
    rw [if_pos h3]
    rfl
  · intro h1 h2 h3
    have hlow : ¬(fromLine < 1 ∨ toLine < 1) := by omega
    have hord : ¬(fromLine > toLine) := by omega
    have hoob : ¬(fromLine > ((pyReadlines content).length : Int)) := by omega
    rw [read_file_lines, if_neg hlow, if_neg hord, hread]
    simp only
    rw [if_neg hoob]
    have hmin : min toLine ((pyReadlines content).length : Int)
        = ((pyReadlines content).length : Int) := by omega
    rw [hmin]
    congr 1
    have hto : (((pyReadlines content).length : Int)).toNat
        = (pyReadlines content).length := by omega
    rw [hto]
    apply List.take_of_length_le
    rw [List.length_drop]

/-- Witness for C4 on a five-line file: an oversized to clamps and all
five lines come back; from = 100 is a hard out-of-bounds error. -/
theorem c4_witness :
    (fsRead fsFive ("f.txt".data) = some ("l1\nl2\nl3\nl4\nl5\n".data))
    ∧ (read_file_lines fsFive ("f.txt".data) 1 1000000000
        = ("l1\nl2\nl3\nl4\nl5\n".data))
    ∧ (read_file_lines fsFive ("f.txt".data) 100 200 = msgOutOfBounds 100 5) := by
  have h := c4_read_file_lines_range fsFive ("f.txt".data)
    ("l1\nl2\nl3\nl4\nl5\n".data) 1 1000000000 (by decide)
  have h2 := c4_read_file_lines_range fsFive ("f.txt".data)
    ("l1\nl2\nl3\nl4\nl5\n".data) 100 200 (by decide)
  refine ⟨by decide, ?_, ?_⟩
  · have := h.2.2 (by decide) (by decide) (by decide)
    rw [this]
    decide
  · have := h2.2.1 (by decide) (by decide) (by decide)
    rw [this]
    decide

/-- Claim C5 (amended: the file content must not itself start with the
text Error, see C10): a successful edit writes back the global
left-to-right non-overlapping replacement, that is, the written content
is the interleaving of the segments between all occurrences, not just
the first; and when the old string does not occur the write proceeds
with unchanged content and the success message is still reported. -/
theorem c5_edit_replaces_all_occurrences (fs : FS) (p old new c : Str)
    (hread : fsRead fs p = some c)
    (herr : startsWithL c ("Error".data) = false) :
    ((edit_file fs p old new).2 = ("Successfully wrote to ".data) ++ p)
    ∧ ((edit_file fs p old new).1 = fsWrite fs p (pyReplace c old new))
    ∧ (∀ o os, old = o :: os →
        pyReplace c old new = joinWith new (splitOnOcc o os c))
    ∧ (occursIn old c = false →
        (edit_file fs p old new).1 = fs) := by
  have hc : read_file fs p = c := by rw [read_file, hread]
  have hmain : edit_file fs p old new = write_file fs p (pyReplace c old new) := by
    rw [edit_file, hc, herr]
    simp
  refine ⟨?_, ?_, ?_, ?_⟩
  · rw [hmain]; rfl
  · rw [hmain]; rfl
  · rintro o os rfl
    exact pyReplaceNE_eq_join o os new c
  · intro hno
    rw [hmain, write_file]
    simp only
    rw [pyReplace_no_occ c old new hno, fsWrite_self fs p c hread]

/-- Witness for C5: editing a one-entry filesystem succeeds and reports
the write. -/
theorem c5_witness :
    (fsRead [ (("a.txt".data), ("x = 1".data)) ] ("a.txt".data)
        = some ("x = 1".data))
    ∧ (startsWithL ("x = 1".data) ("Error".data) = false)
    ∧ ((edit_file [ (("a.txt".data), ("x = 1".data)) ] ("a.txt".data)
          ("1".data) ("10".data)).2
        = ("Successfully wrote to ".data) ++ ("a.txt".data)) :=
  ⟨by decide, by decide,
    (c5_edit_replaces_all_occurrences [ (("a.txt".data), ("x = 1".data)) ]
      ("a.txt".data) ("1".data) ("10".data) ("x = 1".data) (by decide) (by decide)).1⟩

/-- Counterexample to C5 as stated: a perfectly readable file whose
genuine content begins with the text Error is treated as a failed read;
the edit performs no replacement and no write and returns the content
itself instead of a success report. -/
theorem c5_counterexample :
    (fsRead fsErrContent ("a.txt".data) = some ("Error: legacy log".data))
    ∧ (occursIn ("legacy".data) ("Error: legacy log".data) = true)
    ∧ (edit_file fsErrContent ("a.txt".data) ("legacy".data) ("modern".data)
        = (fsErrContent, ("Error: legacy log".data))) := by
  refine ⟨by decide, by decide, ?_⟩
  have h : read_file fsErrContent ("a.txt".data) = ("Error: legacy log".data) := by
    decide
  rw [edit_file, h, if_pos (by decide)]

/-- Claim C7: with regexMode false the escaped pattern matches exactly
the literal term character by character (up to the case flag), so the
metacharacter dot is inert: a.b does not match axb but does match a.b;
with regexMode true the dot matches any non-newline character so a.b
matches axb; a term the compiler rejects yields the invalid-pattern
error result with no matches rather than a raised fault; with
case_sensitive false (the default) matching is case-insensitive, so foo
matches Foo, while case_sensitive true does not. -/
theorem c7_pattern_semantics (corpus : Corpus) (term : Str) (cs : Bool) (maxR : Nat)
    (hbad : compileRegexChars term = Option.none) :
    (∀ ci t s, matchesAt ci (escapeLit t) s = ciIsPre ci t s)
    ∧ ((search_text corpusAxb ("a.b".data) false false 100).total_matches = 0)
    ∧ ((search_text corpusAxb ("a.b".data) false true 100).total_matches = 1)
    ∧ ((search_text corpusAdotb ("a.b".data) false false 100).total_matches = 1)
    ∧ ((search_text corpusFoo ("foo".data) false false 100).total_matches = 1)
    ∧ ((search_text corpusFoo ("foo".data) true false 100).total_matches = 0)
    ∧ (search_text corpus term cs true maxR
        = { initResults with error := some invalidPatternMsg }) := by
  refine ⟨fun ci t s => matchesAt_escapeLit ci t s,
    by decide, by decide, by decide, by decide, by decide, ?_⟩
  simp [search_text, hbad]

/-- Witness for C7: a lone star is rejected by the compiler (as by
Python re) and the search degrades to the invalid-pattern result. -/
theorem c7_witness :
    (compileRegexChars ("*".data) = Option.none)
    ∧ (search_text [] ("*".data) false true 100
        = { initResults with error := some invalidPatternMsg }) :=
  ⟨by decide, (c7_pattern_semantics [] ("*".data) false 100 (by decide)).2.2.2.2.2.2⟩

/-- Claim C9 (amended: it suffices that the old string does not occur in
the once-edited content; the unqualified claim fails, see the
counterexample): under that condition a second identical edit leaves
the filesystem exactly as after the first. -/
theorem c9_edit_idempotent (fs : FS) (p old new c : Str)
    (hread : fsRead fs p = some c)
    (hno : occursIn old (pyReplace c old new) = false) :
    (edit_file ((edit_file fs p old new).1) p old new).1
      = (edit_file fs p old new).1 := by
  have hc : read_file fs p = c := by rw [read_file, hread]
  by_cases he : startsWithL c ("Error".data) = true
  · have h1 : edit_file fs p old new = (fs, c) := by
      rw [edit_file, hc, if_pos he]
    rw [h1, h1]
  · have he' : startsWithL c ("Error".data) = false := by
      cases hb : startsWithL c ("Error".data)
      · rfl
      · exact absurd hb he
    have h1 : edit_file fs p old new = write_file fs p (pyReplace c old new) := by
      rw [edit_file, hc, he']
      simp
    have hfs1 : (edit_file fs p old new).1 = fsWrite fs p (pyReplace c old new) := by
      rw [h1]; rfl
    have hread2 : read_file (fsWrite fs p (pyReplace c old new)) p
        = pyReplace c old new := by
      rw [read_file, fsRead_fsWrite_self]
    rw [hfs1]
    by_cases he2 : startsWithL (pyReplace c old new) ("Error".data) = true
    · rw [edit_file, hread2, if_pos he2]
    · have he2' : startsWithL (pyReplace c old new) ("Error".data) = false := by
        cases hb : startsWithL (pyReplace c old new) ("Error".data)
        · rfl
        · exact absurd hb he2
      rw [edit_file, hread2, he2']
      simp only [write_file, Bool.false_eq_true, if_false]
      rw [pyReplace_no_occ _ old new hno,
        fsWrite_self _ _ _ (fsRead_fsWrite_self fs p (pyReplace c old new))]

/-- Witness for C9: replacing ab by c in xaby is idempotent. -/
theorem c9_witness :
    (fsRead [ (("f".data), ("xaby".data)) ] ("f".data) = some ("xaby".data))
    ∧ (occursIn ("ab".data) (pyReplace ("xaby".data) ("ab".data) ("c".data)) = false)
    ∧ ((edit_file ((edit_file [ (("f".data), ("xaby".data)) ] ("f".data)
          ("ab".data) ("c".data)).1) ("f".data) ("ab".data) ("c".data)).1
        = (edit_file [ (("f".data), ("xaby".data)) ] ("f".data)
            ("ab".data) ("c".data)).1) :=
  ⟨by decide, by simp [pyReplace, pyReplaceNE, startsWithL, occursIn],
    c9_edit_idempotent [ (("f".data), ("xaby".data)) ] ("f".data) ("ab".data)
      ("c".data) ("xaby".data) (by decide)
      (by simp [pyReplace, pyReplaceNE, startsWithL, occursIn])⟩

/-- Counterexample to C9 as stated: on the file aab, replacing ab by b,
where the new string does not contain the old, yields ab after one
edit and b after two, because the first replacement creates a fresh
occurrence across the boundary of the preserved prefix. -/
theorem c9_counterexample :
    (occursIn ("ab".data) ("b".data) = false)
    ∧ (fsRead ((edit_file fsAab ("f.py".data) ("ab".data) ("b".data)).1)
        ("f.py".data) = some ("ab".data))
    ∧ (fsRead ((edit_file ((edit_file fsAab ("f.py".data) ("ab".data) ("b".data)).1)
          ("f.py".data) ("ab".data) ("b".data)).1) ("f.py".data)
        = some ("b".data)) := by
  have e1 : pyReplace ("aab".data) ("ab".data) ("b".data) = ("ab".data) := by
    simp [pyReplace, pyReplaceNE, startsWithL]
  have e2 : pyReplace ("ab".data) ("ab".data) ("b".data) = ("b".data) := by
    simp [pyReplace, pyReplaceNE, startsWithL]
  have hr1 : read_file fsAab ("f.py".data) = ("aab".data) := by decide
  have h1 : (edit_file fsAab ("f.py".data) ("ab".data) ("b".data)).1
      = fsWrite fsAab ("f.py".data) ("ab".data) := by
    rw [edit_file, hr1, if_neg (by decide), write_file, e1]
  have hr2 : read_file (fsWrite fsAab ("f.py".data) ("ab".data)) ("f.py".data)
      = ("ab".data) := by decide
  have h2 : (edit_file (fsWrite fsAab ("f.py".data) ("ab".data)) ("f.py".data)
        ("ab".data) ("b".data)).1
      = fsWrite (fsWrite fsAab ("f.py".data) ("ab".data)) ("f.py".data) ("b".data) := by
    rw [edit_file, hr2, if_neg (by decide), write_file, e2]
  refine ⟨by decide, ?_, ?_⟩
  · rw [h1]; decide
  · rw [h1, h2]; decide

/-- Claim C10: read success is decided solely by the Error prefix of the
returned string, so a file whose genuine content begins with Error is
conflated with a failed read: edit_file returns the content itself and
performs no write, and read_file_action records the read as failed in
action_output while still storing the content. -/
theorem c10_error_prefix_conflation (fs : FS) (p c : Str)
    (hread : fsRead fs p = some c)
    (herr : startsWithL c ("Error".data) = true) :
    (∀ old new, edit_file fs p old new = (fs, c))
    ∧ (∀ st : AgentState,
        getStrD st.action_input ("file_path".data) = p → p ≠ [] →
        read_file_action fs st
          = { st with
              files_content := dictSet st.files_content p (FCVal.text c),
              action_output := ("Read file ".data) ++ p ++ (": Failed - ".data) ++ c }) := by
  have hc : read_file fs p = c := by rw [read_file, hread]
  constructor
  · intro old new
    rw [edit_file, hc, if_pos herr]
  · intro st hfp hne
    simp only [read_file_action, hfp, hc]
    rw [if_neg hne, if_pos herr]

/-- Witness for C10: a log file whose first word is Error. -/
theorem c10_witness :
    (fsRead fsC10 ("log.txt".data) = some ("Error budget report".data))
    ∧ (startsWithL ("Error budget report".data) ("Error".data) = true)
    ∧ (edit_file fsC10 ("log.txt".data) ("budget".data) ("cost".data)
        = (fsC10, ("Error budget report".data)))
    ∧ (read_file_action fsC10 stC10
        = { stC10 with
            files_content := dictSet stC10.files_content ("log.txt".data)
              (FCVal.text ("Error budget report".data)),
            action_output := ("Read file ".data) ++ ("log.txt".data)
              ++ (": Failed - ".data) ++ ("Error budget report".data) }) :=
  ⟨by decide, by decide,
    (c10_error_prefix_conflation fsC10 ("log.txt".data) ("Error budget report".data)
      (by decide) (by decide)).1 ("budget".data) ("cost".data),
    (c10_error_prefix_conflation fsC10 ("log.txt".data) ("Error budget report".data)
      (by decide) (by decide)).2 stC10 (by decide) (by decide)⟩

end CodeAgent
